import Mathlib

/-!
Shallow embedding of the core of the `ec2_mrha_live` trading system and
verification of its specification claims.

Sources embedded:
* `src/capital_allocator.py` — `CapitalAllocator.allocate_capital_dynamically`
* `src/atr_risk_manager.py` — `calculate_atr`, `calculate_position_risk_levels`,
  `should_execute_stop_loss`, `should_execute_take_profit`, and the trigger
  selection order of `monitor_positions`
* `src/improved_order_manager.py` — `monitor_order`, `wait_for_orders_completion`
* `src/enhanced_smart_order_executor.py` — `execute_market_buy`,
  `execute_market_sell`

Python floats are modelled as rationals (`ℚ`); Python dicts from ticker to
amount are modelled as association lists with Python's replace-or-append
update semantics; exceptions of fallible code are modelled with `Option` /
`Except`.  Wall-clock time inside the polling loop is modelled by explicit
accumulation of the slept delays (each `get_order` call itself is counted as
instantaneous).
-/

/-! ## Capital allocator (`src/capital_allocator.py`) -/

/-- A buy signal as consumed by `allocate_capital_dynamically`.  In the source a
signal is a dict; `ticker` models `signal.get('ticker', signal.get('coin'))`,
`is_momentum` models `signal.get('is_momentum', False)` and `momentum_score`
models `signal.get('momentum_score', 1)` (a dict without the key behaves as a
signal with `momentum_score = 1`). -/
structure Signal where
  ticker : String
  is_momentum : Bool
  momentum_score : ℚ
deriving DecidableEq

/-- Python dict update `d[k] = v`: if the key is present its value is replaced
in place, otherwise the pair is appended at the end. -/
def dictUpsert (m : List (String × ℚ)) (k : String) (v : ℚ) :
    List (String × ℚ) :=
  if k ∈ m.map Prod.fst then
    m.map (fun p => if p.1 = k then (k, v) else p)
  else
    m ++ [(k, v)]

/-- Python dict lookup `d.get(k)`. -/
def dictLookup : List (String × ℚ) → String → Option ℚ
  | [], _ => none
  | p :: m, k => if p.1 = k then some p.2 else dictLookup m k

/-- Sum of the values of a dict, `sum(d.values())`. -/
def dictSumValues (m : List (String × ℚ)) : ℚ :=
  (m.map Prod.snd).sum

/-- Tradeable capital: `available_krw * (1 - self.reserve_ratio)` with
`reserve_ratio = 0.02`. -/
def tradeableCapital (available_krw : ℚ) : ℚ :=
  available_krw * (1 - 2 / 100)

/-- The `momentum_capital` / `regular_capital` split of
`allocate_capital_dynamically` (`momentum_capital_ratio = 0.6`):
both groups non-empty → 60 % / 40 %; only momentum → 100 % / 0;
otherwise → 0 / 100 %. -/
def capitalSplit (tradeable_capital : ℚ)
    (momentum_signals regular_signals : List Signal) : ℚ × ℚ :=
  if momentum_signals ≠ [] ∧ regular_signals ≠ [] then
    (tradeable_capital * (6 / 10), tradeable_capital * (1 - 6 / 10))
  else if momentum_signals ≠ [] then
    (tradeable_capital, 0)
  else
    (0, tradeable_capital)

/-- Weight of a momentum signal inside its group:
`score / total_score if total_score > 0 else 1 / len(momentum_signals)`. -/
def momentumWeight (momentum_signals : List Signal) (s : Signal) : ℚ :=
  if (momentum_signals.map Signal.momentum_score).sum > 0 then
    s.momentum_score / (momentum_signals.map Signal.momentum_score).sum
  else 1 / (momentum_signals.length : ℚ)

/-- One iteration of either allocation loop of
`allocate_capital_dynamically`: insert `value s` under `s.ticker` when it
reaches `min_order_size = 5000`, otherwise leave the dict unchanged. -/
def allocStep (value : Signal → ℚ) (m : List (String × ℚ)) (s : Signal) :
    List (String × ℚ) :=
  if 5000 ≤ value s then dictUpsert m s.ticker (value s) else m

/-- The momentum allocation block of `allocate_capital_dynamically`
(`if momentum_signals and momentum_capital > 0`): starting from the empty
dict, allocate `momentum_capital * weight` to each momentum signal. -/
def momentumAllocations (momentum_capital : ℚ)
    (momentum_signals : List Signal) : List (String × ℚ) :=
  if momentum_signals ≠ [] ∧ momentum_capital > 0 then
    momentum_signals.foldl
      (allocStep
        (fun s => momentum_capital * momentumWeight momentum_signals s)) []
  else []

/-- The regular allocation block of `allocate_capital_dynamically`
(`if regular_signals and regular_capital > 0`): allocate the equal share
`regular_capital / len(regular_signals)` to each regular signal, on top of
the dict produced by the momentum block. -/
def regularAllocations (regular_capital : ℚ)
    (regular_signals : List Signal) (allocations : List (String × ℚ)) :
    List (String × ℚ) :=
  if regular_signals ≠ [] ∧ regular_capital > 0 then
    regular_signals.foldl
      (allocStep (fun _ => regular_capital / (regular_signals.length : ℚ)))
      allocations
  else allocations

/-- `CapitalAllocator.allocate_capital_dynamically(available_krw, buy_signals)`
(`src/capital_allocator.py`, lines 11–62).  The momentum loop allocates
`momentum_capital * weight` per momentum signal, the regular loop allocates
`regular_capital / len(regular_signals)` per regular signal; only allocations
of at least 5000 KRW are kept.  No statement in the body can raise, so the
surrounding `try/except` never produces the empty fallback dict. -/
def allocate_capital_dynamically (available_krw : ℚ)
    (buy_signals : List Signal) : List (String × ℚ) :=
  if buy_signals = [] then []
  else
    regularAllocations
      (capitalSplit (tradeableCapital available_krw)
        (buy_signals.filter (fun s => s.is_momentum))
        (buy_signals.filter (fun s => !s.is_momentum))).2
      (buy_signals.filter (fun s => !s.is_momentum))
      (momentumAllocations
        (capitalSplit (tradeableCapital available_krw)
          (buy_signals.filter (fun s => s.is_momentum))
          (buy_signals.filter (fun s => !s.is_momentum))).1
        (buy_signals.filter (fun s => s.is_momentum)))

/-! ## ATR risk manager (`src/atr_risk_manager.py`) -/

/-- One daily OHLC bar as used by `calculate_atr` (only `high`, `low`,
`close` are read). -/
structure Bar where
  high : ℚ
  low : ℚ
  close : ℚ
deriving DecidableEq

/-- Full True Range of a bar that has a previous bar:
`max(high - low, abs(high - prev_close), abs(low - prev_close))`. -/
def trueRange (prev cur : Bar) : ℚ :=
  max (cur.high - cur.low) (max |cur.high - prev.close| |cur.low - prev.close|)

/-- The `true_range` column computed by `calculate_atr`.  For the first row
`prev_close` is NaN, so `tr2` and `tr3` are NaN and the row-wise `max`
(pandas skips NaN) degrades to `tr1 = high - low`; every later row gets the
full True Range. -/
def trueRangeList : List Bar → List ℚ
  | [] => []
  | b :: rest => (b.high - b.low) :: List.zipWith trueRange (b :: rest) rest

/-- `ATRRiskManager.calculate_atr` (`src/atr_risk_manager.py`, lines 50–77),
as a function of the bars actually returned by the
`pyupbit.get_ohlcv(ticker, interval="day", count=period+5)` call (`df`; a
`None` reply behaves as the empty list).  The guard returns `0.0` when
`len(df) < period`; otherwise the result is
`df['true_range'].rolling(window=period).mean().iloc[-1]`, i.e. the mean of
the last `period` entries of the `true_range` column.  A `period` of `0`
makes `rolling` raise, which the surrounding `except` turns into `0.0`. -/
def calculate_atr (period : ℕ) (df : List Bar) : ℚ :=
  if period = 0 then 0
  else if df.length < period then 0
  else ((trueRangeList df).drop (df.length - period)).sum / (period : ℚ)

/-- The `risk_data` dict built by `calculate_position_risk_levels`. -/
structure RiskData where
  atr : ℚ
  atr_percent : ℚ
  estimated_entry : ℚ
  stop_loss : ℚ
  take_profit : ℚ
  trailing_threshold : ℚ
  current_profit_loss : ℚ
  stop_loss_distance : ℚ
  take_profit_distance : ℚ
  position_risk : ℚ
deriving DecidableEq

/-- The ATR actually used by `calculate_position_risk_levels`: when the
fetched ATR is `0` the fallback `current_price * 0.02` is substituted. -/
def effectiveAtr (current_price atrFetched : ℚ) : ℚ :=
  if atrFetched = 0 then current_price * (2 / 100) else atrFetched

/-- The estimated entry price of `calculate_position_risk_levels`: midpoint
of `recent_low = df['low'].tail(3).min()` and
`recent_high = df['high'].tail(3).max()` when the 5-day fetch returned data,
else the current price.  `recent` carries that `(recent_low, recent_high)`
pair, `none` modelling `df is None or len(df) == 0`. -/
def estimatedEntry (current_price : ℚ) (recent : Option (ℚ × ℚ)) : ℚ :=
  match recent with
  | some lohi => (lohi.1 + lohi.2) / 2
  | none => current_price

/-- `ATRRiskManager.calculate_position_risk_levels`
(`src/atr_risk_manager.py`, lines 118–166), as a function of the position's
`current_price` and `market_value`, the fetched ATR (`atrFetched`, the value
`calculate_atr` returned), the recent low/high window (`recent`) and the
total portfolio value.  Multipliers: `STOP_LOSS_MULTIPLIER = 2.0`,
`TAKE_PROFIT_MULTIPLIER = 3.0`, `TRAILING_STOP_THRESHOLD = 1.5`.  A zero
`current_price`, estimated entry or portfolio value makes one of the
divisions raise `ZeroDivisionError`, which the surrounding `except` turns
into the empty dict — modelled by `none`.  Note that the dict entry
`stop_loss` is clamped with `max(stop_loss, 0)` while `stop_loss_distance`
uses the unclamped local variable. -/
def calculate_position_risk_levels (current_price atrFetched : ℚ)
    (recent : Option (ℚ × ℚ)) (market_value portfolio_value : ℚ) :
    Option RiskData :=
  let atr := effectiveAtr current_price atrFetched
  let entry := estimatedEntry current_price recent
  let stop_loss0 := entry - atr * 2
  let take_profit := entry + atr * 3
  let trailing_threshold := entry + atr * (3 / 2)
  let stop_loss :=
    if current_price > trailing_threshold then
      max stop_loss0 (current_price - atr * 2)
    else stop_loss0
  if current_price = 0 ∨ entry = 0 ∨ portfolio_value = 0 then none
  else
    some
      { atr := atr
        atr_percent := atr / current_price * 100
        estimated_entry := entry
        stop_loss := max stop_loss 0
        take_profit := take_profit
        trailing_threshold := trailing_threshold
        current_profit_loss := (current_price - entry) / entry * 100
        stop_loss_distance := (current_price - stop_loss) / current_price * 100
        take_profit_distance :=
          (take_profit - current_price) / current_price * 100
        position_risk := market_value / portfolio_value * 100 }

/-- `ATRRiskManager.should_execute_stop_loss` (lines 192–202): fires when
`current_price <= stop_loss`. -/
def should_execute_stop_loss (current_price stop_loss : ℚ) : Bool :=
  decide (current_price ≤ stop_loss)

/-- `ATRRiskManager.should_execute_take_profit` (lines 204–214): fires when
`current_price >= take_profit`. -/
def should_execute_take_profit (current_price take_profit : ℚ) : Bool :=
  decide (take_profit ≤ current_price)

/-- The order type selected for a position by one iteration of
`monitor_positions`. -/
inductive RiskAction where
  | stopLossOrder
  | takeProfitOrder
  | noAction
deriving DecidableEq

/-- The trigger selection of `ATRRiskManager.monitor_positions`
(`src/atr_risk_manager.py`, lines 300–323): the stop-loss check runs first
and the take-profit check sits in the `elif`, so it is only evaluated when
the stop-loss condition did not fire. -/
def selectRiskAction (current_price stop_loss take_profit : ℚ) : RiskAction :=
  if should_execute_stop_loss current_price stop_loss then .stopLossOrder
  else if should_execute_take_profit current_price take_profit then
    .takeProfitOrder
  else .noAction

/-! ## Order monitor (`src/improved_order_manager.py`) -/

/-- The part of an order dict returned by `upbit.get_order` that
`monitor_order` reads. -/
structure OrderInfo where
  state : String
  uuid : String
deriving DecidableEq

/-- Outcome of one `upbit.get_order` call: the call raised (`exc`), or it
returned (`ok`), possibly with a falsy/`None` value (`ok none`). -/
inductive PollResp where
  | exc (e : String)
  | ok (o : Option OrderInfo)
deriving DecidableEq

/-- The dict `monitor_order` returns: an order dict obtained from
`get_order` (any state), the synthesized
`{'state': 'error', 'uuid': ..., 'error': ...}` dict, or the synthesized
`{'state': 'timeout', 'uuid': ..., 'elapsed_seconds': ...}` dict. -/
inductive MonitorResult where
  | order (o : OrderInfo)
  | errorResult (uuid error : String)
  | timeoutResult (uuid : String) (elapsed_seconds : ℚ)
deriving DecidableEq

/-- Loop state of `monitor_order`: elapsed wall-clock seconds since
`start_time` (the accumulated sleeps) and the `consecutive_failures`
counter. -/
structure LoopState where
  elapsed : ℚ
  failures : ℕ
deriving DecidableEq

/-- The final status check of `monitor_order` (lines 91–103), performed once
the deadline has elapsed: a truthy reply is returned as-is (whether or not
its state is `done`); a falsy reply or an exception falls through to the
`timeout` dict. -/
def finalCheck (order_id : String) (resp : PollResp) (elapsed : ℚ) :
    MonitorResult :=
  match resp with
  | .ok (some o) => .order o
  | .ok none => .timeoutResult order_id elapsed
  | .exc _ => .timeoutResult order_id elapsed

/-- One iteration of the `while` body of `monitor_order` (lines 36–85).
On an exception the failure counter is incremented, the retry delay becomes
`min(check_interval * 2 ** consecutive_failures, 5)`, and once the counter
reaches `max_failures = 5` the `error` dict is returned; otherwise the loop
sleeps the delay.  On a truthy reply the counter resets to `0` and states
`done`/`cancel` return the order; any other state sleeps `check_interval`.
A `None` reply first resets the counter (line 39) and then raises
`TypeError` at `order['state']`, so it continues with one recorded
failure. -/
def monitorStep (order_id : String) (check_interval : ℚ) (s : LoopState)
    (resp : PollResp) : MonitorResult ⊕ LoopState :=
  match resp with
  | .exc e =>
    if 5 ≤ s.failures + 1 then .inl (.errorResult order_id e)
    else
      .inr ⟨s.elapsed + min (check_interval * 2 ^ (s.failures + 1)) 5,
        s.failures + 1⟩
  | .ok none =>
    .inr ⟨s.elapsed + min (check_interval * 2 ^ (1 : ℕ)) 5, 1⟩
  | .ok (some o) =>
    if o.state = "done" then .inl (.order o)
    else if o.state = "cancel" then .inl (.order o)
    else .inr ⟨s.elapsed + check_interval, 0⟩

/-- The polling loop of `monitor_order`: while `elapsed < timeout`, consume
the next `get_order` reply; when the deadline is reached (or the recorded
reply trace is exhausted) perform the one final status check with reply
`finalResp`. -/
def monitorLoop (order_id : String) (timeout check_interval : ℚ)
    (finalResp : PollResp) : LoopState → List PollResp → MonitorResult
  | s, [] => finalCheck order_id finalResp s.elapsed
  | s, r :: rest =>
    if s.elapsed < timeout then
      match monitorStep order_id check_interval s r with
      | .inl result => result
      | .inr s' => monitorLoop order_id timeout check_interval finalResp s' rest
    else finalCheck order_id finalResp s.elapsed

/-- `ImprovedOrderManager.monitor_order` (`src/improved_order_manager.py`,
lines 13–103) as a function of the recorded `get_order` replies.  The
`timeout = timeout or self.order_timeout` line replaces a missing or falsy
(zero) timeout argument by the default `order_timeout = 60`; the default
`check_interval` is `0.5`. -/
def monitor_order (order_id : String) (timeoutArg : Option ℚ)
    (check_interval : ℚ) (resps : List PollResp) (finalResp : PollResp) :
    MonitorResult :=
  let timeout := match timeoutArg with
    | none => 60
    | some t => if t = 0 then 60 else t
  monitorLoop order_id timeout check_interval finalResp ⟨0, 0⟩ resps

/-- `ImprovedOrderManager.wait_for_orders_completion`
(`src/improved_order_manager.py`, lines 105–135), reduced to the monitoring
schedule it produces.  Each batch entry carries the order's uuid (`none` for
an order dict without a `'uuid'` key, which the loop skips) together with
the wall-clock duration its `monitor_order` call ends up taking; the result
pairs every monitored uuid with the timeout allocated to its call,
`max(1, timeout - elapsed)`. -/
def wait_for_orders_completion (timeout : ℚ) :
    ℚ → List (Option String × ℚ) → List (String × ℚ)
  | _, [] => []
  | elapsed, (none, _) :: rest => wait_for_orders_completion timeout elapsed rest
  | elapsed, (some uuid, d) :: rest =>
    (uuid, max 1 (timeout - elapsed)) ::
      wait_for_orders_completion timeout (elapsed + d) rest

/-! ## Smart order executor (`src/enhanced_smart_order_executor.py`) -/

/-- The result dict of `execute_market_buy` / `execute_market_sell`:
`success` flag, `error` reason on failure, and on success the placed order's
uuid, the price estimate (`executed_price`, the raw `get_current_price`
reply — possibly `None` on the sell path) and the estimated filled
amount. -/
structure ExecResult where
  success : Bool
  error : Option String
  order_uuid : Option String
  executed_price : Option ℚ
  executed_amount : Option ℚ
deriving DecidableEq

/-- `EnhancedSmartOrderExecutor.execute_market_buy`
(`src/enhanced_smart_order_executor.py`, lines 168–208).  `price` is the
`pyupbit.get_current_price(ticker)` reply (`none` when it cannot resolve a
price; Python also treats a literal `0` price as falsy), `orderResp` the
`buy_market_order` outcome: an exception, a falsy/uuid-less reply
(`ok none`) or a reply carrying a uuid.  In test mode the KRW amount is
capped at 5500. -/
def execute_market_buy (test_mode : Bool) (ticker : String)
    (krw_amount0 : ℚ) (price : Option ℚ)
    (orderResp : Except String (Option String)) : ExecResult :=
  let krw_amount := if test_mode then min krw_amount0 5500 else krw_amount0
  match price with
  | none =>
    ⟨false, some ("Couldn't get current price for " ++ ticker), none, none,
      none⟩
  | some p =>
    if p = 0 then
      ⟨false, some ("Couldn't get current price for " ++ ticker), none, none,
        none⟩
    else
      match orderResp with
      | .error e => ⟨false, some e, none, none, none⟩
      | .ok none => ⟨false, some "Failed market buy", none, none, none⟩
      | .ok (some uuid) =>
        ⟨true, none, some uuid, some p, some ((krw_amount * (995 / 1000)) / p)⟩

/-- `EnhancedSmartOrderExecutor.execute_market_sell`
(`src/enhanced_smart_order_executor.py`, lines 121–160).  `balance` is the
test-mode `get_balance(ticker)` reply; in test mode with a positive balance
the sold amount becomes `max(min(balance * 0.05, amount), 0.0001)`.  The
`get_current_price` reply is never checked — it is only copied into
`executed_price` of a successful result. -/
def execute_market_sell (test_mode : Bool) (ticker : String) (amount0 : ℚ)
    (balance : ℚ) (price : Option ℚ)
    (orderResp : Except String (Option String)) : ExecResult :=
  let amount :=
    if test_mode ∧ balance > 0 then max (min (balance * (5 / 100)) amount0)
      (1 / 10000)
    else amount0
  match orderResp with
  | .error e => ⟨false, some e, none, none, none⟩
  | .ok none => ⟨false, some "Failed market sell", none, none, none⟩
  | .ok (some uuid) => ⟨true, none, some uuid, price, some amount⟩

/-! ## Lemmas about the dict model -/

theorem dictUpsert_ne_nil (m : List (String × ℚ)) (k : String) (v : ℚ) :
    dictUpsert m k v ≠ [] := by
  unfold dictUpsert
  split
  · rename_i h
    intro hnil
    rw [List.map_eq_nil_iff] at hnil
    subst hnil
    simp at h
  · simp

theorem dictLookup_eq_none (m : List (String × ℚ)) (k : String)
    (h : k ∉ m.map Prod.fst) : dictLookup m k = none := by
  induction m with
  | nil => rfl
  | cons p m' ih =>
    simp only [List.map_cons, List.mem_cons, not_or] at h
    rw [dictLookup, if_neg (fun hpk => h.1 hpk.symm)]
    exact ih h.2

theorem dictLookup_append_right (m₁ m₂ : List (String × ℚ)) (k : String)
    (h : k ∉ m₁.map Prod.fst) :
    dictLookup (m₁ ++ m₂) k = dictLookup m₂ k := by
  induction m₁ with
  | nil => rfl
  | cons p m' ih =>
    simp only [List.map_cons, List.mem_cons, not_or] at h
    rw [List.cons_append, dictLookup, if_neg (fun hpk => h.1 hpk.symm)]
    exact ih h.2

theorem dictLookup_dictUpsert_self (m : List (String × ℚ)) (k : String)
    (v : ℚ) : dictLookup (dictUpsert m k v) k = some v := by
  unfold dictUpsert
  split
  · rename_i h
    induction m with
    | nil => simp at h
    | cons p m' ih =>
      by_cases hp : p.1 = k
      · simp only [List.map_cons, if_pos hp]
        rw [dictLookup, if_pos rfl]
      · simp only [List.map_cons, if_neg hp]
        rw [dictLookup, if_neg hp]
        apply ih
        simp only [List.map_cons, List.mem_cons] at h
        rcases h with h | h
        · exact absurd h.symm hp
        · exact h
  · rename_i h
    rw [dictLookup_append_right _ _ _ h, dictLookup, if_pos rfl]

theorem dictLookup_map_replace (m : List (String × ℚ)) (k k' : String)
    (v : ℚ) (h : k' ≠ k) :
    dictLookup (m.map (fun p => if p.1 = k then (k, v) else p)) k'
      = dictLookup m k' := by
  induction m with
  | nil => rfl
  | cons p m' ih =>
    simp only [List.map_cons]
    by_cases hp : p.1 = k
    · rw [if_pos hp, dictLookup, if_neg (fun hk => h hk.symm), dictLookup,
        if_neg (fun hpk => h (hp ▸ hpk).symm)]
      exact ih
    · rw [if_neg hp, dictLookup, dictLookup]
      split
      · rfl
      · exact ih

theorem dictLookup_append_singleton_ne (m : List (String × ℚ))
    (k k' : String) (v : ℚ) (h : k' ≠ k) :
    dictLookup (m ++ [(k, v)]) k' = dictLookup m k' := by
  induction m with
  | nil =>
    rw [List.nil_append,
      show dictLookup [(k, v)] k' = if k = k' then some v else none from rfl,
      if_neg (Ne.symm h)]
    rfl
  | cons p m' ih =>
    rw [List.cons_append, dictLookup, dictLookup]
    split
    · rfl
    · exact ih

theorem dictLookup_dictUpsert_ne (m : List (String × ℚ)) (k k' : String)
    (v : ℚ) (h : k' ≠ k) :
    dictLookup (dictUpsert m k v) k' = dictLookup m k' := by
  unfold dictUpsert
  split
  · exact dictLookup_map_replace m k k' v h
  · exact dictLookup_append_singleton_ne m k k' v h

theorem keys_dictUpsert_of_mem (m : List (String × ℚ)) (k : String) (v : ℚ)
    (h : k ∈ m.map Prod.fst) :
    (dictUpsert m k v).map Prod.fst = m.map Prod.fst := by
  rw [dictUpsert, if_pos h, List.map_map]
  apply List.map_congr_left
  intro p _
  by_cases hp : p.1 = k
  · simp [Function.comp, hp]
  · simp [Function.comp, hp]

theorem keys_dictUpsert_of_not_mem (m : List (String × ℚ)) (k : String)
    (v : ℚ) (h : k ∉ m.map Prod.fst) :
    (dictUpsert m k v).map Prod.fst = m.map Prod.fst ++ [k] := by
  rw [dictUpsert, if_neg h, List.map_append]
  rfl

theorem nodup_keys_dictUpsert (m : List (String × ℚ)) (k : String) (v : ℚ)
    (h : (m.map Prod.fst).Nodup) :
    ((dictUpsert m k v).map Prod.fst).Nodup := by
  by_cases hmem : k ∈ m.map Prod.fst
  · rw [keys_dictUpsert_of_mem _ _ _ hmem]
    exact h
  · rw [keys_dictUpsert_of_not_mem _ _ _ hmem]
    refine List.Nodup.append h (List.nodup_singleton k) ?_
    intro a ha hak
    rw [List.mem_singleton] at hak
    exact hmem (hak ▸ ha)

theorem forall_snd_dictUpsert (m : List (String × ℚ)) (k : String) (v : ℚ)
    (P : ℚ → Prop) (hm : ∀ p ∈ m, P p.2) (hv : P v) :
    ∀ p ∈ dictUpsert m k v, P p.2 := by
  intro p hp
  unfold dictUpsert at hp
  split at hp
  · rcases List.mem_map.mp hp with ⟨q, hq, hpq⟩
    by_cases hqk : q.1 = k
    · rw [if_pos hqk] at hpq
      rw [← hpq]
      exact hv
    · rw [if_neg hqk] at hpq
      rw [← hpq]
      exact hm q hq
  · rcases List.mem_append.mp hp with hq | hq
    · exact hm p hq
    · rw [List.mem_singleton] at hq
      rw [hq]
      exact hv

theorem dictSumValues_map_replace_le (k : String) (v : ℚ) :
    ∀ m : List (String × ℚ), (m.map Prod.fst).Nodup → (∀ p ∈ m, 0 ≤ p.2) →
      k ∈ m.map Prod.fst →
      dictSumValues (m.map (fun p => if p.1 = k then (k, v) else p))
        ≤ dictSumValues m + v := by
  intro m
  induction m with
  | nil =>
    intro _ _ hmem
    simp at hmem
  | cons p m' ih =>
    intro hnd hm hmem
    simp only [List.map_cons, List.nodup_cons] at hnd
    simp only [List.map_cons, List.mem_cons] at hmem
    by_cases hp : p.1 = k
    · rw [List.map_cons, if_pos hp]
      have hrest : m'.map (fun q => if q.1 = k then (k, v) else q) = m' := by
        conv_rhs => rw [← List.map_id m']
        apply List.map_congr_left
        intro q hq
        have hqk : q.1 ≠ k := by
          intro hqk
          apply hnd.1
          rw [hp]
          exact List.mem_map.mpr ⟨q, hq, hqk⟩
        simp [hqk]
      rw [hrest]
      unfold dictSumValues
      simp only [List.map_cons, List.sum_cons]
      have h0 : (0 : ℚ) ≤ p.2 := hm p (List.mem_cons_self p m')
      linarith
    · rw [List.map_cons, if_neg hp]
      have hk' : k ∈ m'.map Prod.fst := by
        rcases hmem with h | h
        · exact absurd h.symm hp
        · exact h
      have hb := ih hnd.2 (fun q hq => hm q (List.mem_cons_of_mem p hq)) hk'
      unfold dictSumValues at hb ⊢
      simp only [List.map_cons, List.sum_cons]
      linarith

theorem dictSumValues_dictUpsert_le (m : List (String × ℚ)) (k : String)
    (v : ℚ) (hnd : (m.map Prod.fst).Nodup) (hm : ∀ p ∈ m, 0 ≤ p.2) :
    dictSumValues (dictUpsert m k v) ≤ dictSumValues m + v := by
  unfold dictUpsert
  split
  · rename_i hmem
    exact dictSumValues_map_replace_le k v m hnd hm hmem
  · unfold dictSumValues
    simp

theorem dictSumValues_nonneg (m : List (String × ℚ))
    (hm : ∀ p ∈ m, 0 ≤ p.2) : 0 ≤ dictSumValues m := by
  unfold dictSumValues
  apply List.sum_nonneg
  intro x hx
  rcases List.mem_map.mp hx with ⟨p, hp, hpx⟩
  exact hpx ▸ hm p hp

/-! ## Lemmas about the allocation loops -/

theorem allocStep_ne_nil (value : Signal → ℚ) (m : List (String × ℚ))
    (s : Signal) (h : m ≠ []) : allocStep value m s ≠ [] := by
  unfold allocStep
  split
  · exact dictUpsert_ne_nil m s.ticker (value s)
  · exact h

theorem foldl_allocStep_ne_nil (value : Signal → ℚ) :
    ∀ (l : List Signal) (m : List (String × ℚ)), m ≠ [] →
      l.foldl (allocStep value) m ≠ [] := by
  intro l
  induction l with
  | nil => exact fun m h => h
  | cons a l' ih =>
    intro m h
    rw [List.foldl_cons]
    exact ih _ (allocStep_ne_nil value m a h)

theorem foldl_allocStep_ne_nil_of_mem (value : Signal → ℚ) :
    ∀ (l : List Signal) (m : List (String × ℚ)) (s : Signal), s ∈ l →
      5000 ≤ value s → l.foldl (allocStep value) m ≠ [] := by
  intro l
  induction l with
  | nil =>
    intro m s hs
    simp at hs
  | cons a l' ih =>
    intro m s hs hbig
    rcases List.mem_cons.mp hs with rfl | hs'
    · rw [List.foldl_cons]
      apply foldl_allocStep_ne_nil
      unfold allocStep
      rw [if_pos hbig]
      exact dictUpsert_ne_nil _ _ _
    · rw [List.foldl_cons]
      exact ih _ s hs' hbig

theorem nodup_keys_allocStep (value : Signal → ℚ) (m : List (String × ℚ))
    (s : Signal) (h : (m.map Prod.fst).Nodup) :
    ((allocStep value m s).map Prod.fst).Nodup := by
  unfold allocStep
  split
  · exact nodup_keys_dictUpsert _ _ _ h
  · exact h

theorem forall_snd_allocStep (value : Signal → ℚ) (m : List (String × ℚ))
    (s : Signal) (P : ℚ → Prop) (hm : ∀ p ∈ m, P p.2)
    (hv : 5000 ≤ value s → P (value s)) :
    ∀ p ∈ allocStep value m s, P p.2 := by
  unfold allocStep
  split
  · rename_i hbig
    exact forall_snd_dictUpsert _ _ _ _ hm (hv hbig)
  · exact hm

theorem forall_snd_foldl_allocStep (value : Signal → ℚ) (P : ℚ → Prop) :
    ∀ (l : List Signal) (m : List (String × ℚ)), (∀ p ∈ m, P p.2) →
      (∀ s ∈ l, 5000 ≤ value s → P (value s)) →
      ∀ p ∈ l.foldl (allocStep value) m, P p.2 := by
  intro l
  induction l with
  | nil => exact fun m hm _ => hm
  | cons a l' ih =>
    intro m hm hl
    rw [List.foldl_cons]
    exact ih _
      (forall_snd_allocStep value m a P hm (hl a (List.mem_cons_self a l')))
      (fun s hs => hl s (List.mem_cons_of_mem a hs))

theorem nodup_keys_foldl_allocStep (value : Signal → ℚ) :
    ∀ (l : List Signal) (m : List (String × ℚ)), (m.map Prod.fst).Nodup →
      ((l.foldl (allocStep value) m).map Prod.fst).Nodup := by
  intro l
  induction l with
  | nil => exact fun m h => h
  | cons a l' ih =>
    intro m h
    rw [List.foldl_cons]
    exact ih _ (nodup_keys_allocStep value m a h)

theorem dictSumValues_foldl_allocStep_le (value : Signal → ℚ) :
    ∀ (l : List Signal) (m : List (String × ℚ)),
      (m.map Prod.fst).Nodup → (∀ p ∈ m, 0 ≤ p.2) →
      (∀ s ∈ l, 0 ≤ value s) →
      dictSumValues (l.foldl (allocStep value) m)
        ≤ dictSumValues m + (l.map value).sum := by
  intro l
  induction l with
  | nil =>
    intro m _ _ _
    simp
  | cons a l' ih =>
    intro m hnd hm hl
    rw [List.foldl_cons, List.map_cons, List.sum_cons]
    have ha : 0 ≤ value a := hl a (List.mem_cons_self a l')
    have hstep : dictSumValues (allocStep value m a)
        ≤ dictSumValues m + value a := by
      unfold allocStep
      split
      · exact dictSumValues_dictUpsert_le m a.ticker (value a) hnd hm
      · linarith
    have hm' : ∀ p ∈ allocStep value m a, 0 ≤ p.2 :=
      forall_snd_allocStep value m a _ hm (fun _ => ha)
    have hnd' := nodup_keys_allocStep value m a hnd
    have := ih (allocStep value m a) hnd' hm'
      (fun s hs => hl s (List.mem_cons_of_mem a hs))
    linarith

theorem dictLookup_foldl_allocStep_of_not_mem (value : Signal → ℚ) :
    ∀ (l : List Signal) (m : List (String × ℚ)) (k : String),
      (∀ s ∈ l, s.ticker ≠ k) →
      dictLookup (l.foldl (allocStep value) m) k = dictLookup m k := by
  intro l
  induction l with
  | nil => exact fun m k _ => rfl
  | cons a l' ih =>
    intro m k hl
    rw [List.foldl_cons, ih _ k (fun s hs => hl s (List.mem_cons_of_mem a hs))]
    unfold allocStep
    split
    · exact dictLookup_dictUpsert_ne m a.ticker k (value a)
        (Ne.symm (hl a (List.mem_cons_self a l')))
    · rfl

theorem dictLookup_foldl_allocStep_self (value : Signal → ℚ) :
    ∀ (l : List Signal) (m : List (String × ℚ)) (s : Signal),
      (l.map Signal.ticker).Nodup → s ∈ l → 5000 ≤ value s →
      dictLookup (l.foldl (allocStep value) m) s.ticker = some (value s) := by
  intro l
  induction l with
  | nil =>
    intro m s _ hs
    simp at hs
  | cons a l' ih =>
    intro m s hnd hs hbig
    simp only [List.map_cons, List.nodup_cons] at hnd
    rcases List.mem_cons.mp hs with rfl | hs'
    · rw [List.foldl_cons,
        dictLookup_foldl_allocStep_of_not_mem value l' _ s.ticker
          (fun q hq hqk => hnd.1 (List.mem_map.mpr ⟨q, hq, hqk⟩))]
      unfold allocStep
      rw [if_pos hbig]
      exact dictLookup_dictUpsert_self m s.ticker (value s)
    · rw [List.foldl_cons]
      exact ih _ s hnd.2 hs' hbig

theorem sum_momentumWeight (M : List Signal) (hM : M ≠ []) :
    (M.map (momentumWeight M)).sum = 1 := by
  by_cases htot : (M.map Signal.momentum_score).sum > 0
  · have hmap : M.map (momentumWeight M)
        = M.map (fun s =>
            s.momentum_score * ((M.map Signal.momentum_score).sum)⁻¹) := by
      apply List.map_congr_left
      intro s _
      rw [momentumWeight, if_pos htot, div_eq_mul_inv]
    rw [hmap, List.sum_map_mul_right]
    exact mul_inv_cancel₀ (ne_of_gt htot)
  · have hmap : M.map (momentumWeight M)
        = M.map (fun _ => 1 / (M.length : ℚ)) := by
      apply List.map_congr_left
      intro s _
      rw [momentumWeight, if_neg htot]
    have hlen : ((M.length : ℚ)) ≠ 0 :=
      Nat.cast_ne_zero.mpr (List.length_pos.mpr hM).ne'
    rw [hmap, List.map_const', List.sum_replicate, nsmul_eq_mul, mul_one_div]
    exact div_self hlen

/-! ## Lemmas about the ATR computation -/

theorem zipWith_drop_eq {α β γ : Type} (f : α → β → γ) :
    ∀ (n : ℕ) (l : List α) (l' : List β),
      (List.zipWith f l l').drop n = List.zipWith f (l.drop n) (l'.drop n) := by
  intro n
  induction n with
  | zero =>
    intro l l'
    rfl
  | succ n ih =>
    intro l l'
    cases l with
    | nil => simp
    | cons a l =>
      cases l' with
      | nil => simp
      | cons b l' =>
        rw [List.zipWith_cons_cons, List.drop_succ_cons, List.drop_succ_cons,
          List.drop_succ_cons, ih]

theorem exists_of_mem_zipWith {α β γ : Type} {f : α → β → γ} :
    ∀ {l : List α} {l' : List β} {x : γ}, x ∈ List.zipWith f l l' →
      ∃ a b, x = f a b := by
  intro l
  induction l with
  | nil =>
    intro l' x hx
    simp at hx
  | cons a l ih =>
    intro l' x hx
    cases l' with
    | nil => simp at hx
    | cons b l' =>
      rw [List.zipWith_cons_cons] at hx
      rcases List.mem_cons.mp hx with rfl | hx'
      · exact ⟨a, b, rfl⟩
      · exact ih hx'

theorem trueRange_nonneg (prev cur : Bar) : 0 ≤ trueRange prev cur :=
  le_trans (abs_nonneg (cur.high - prev.close))
    (le_trans (le_max_left _ _) (le_max_right _ _))

theorem trueRangeList_drop (df : List Bar) (n : ℕ) (hn : 1 ≤ n) :
    (trueRangeList df).drop n
      = List.zipWith trueRange (df.drop (n - 1)) (df.drop n) := by
  cases df with
  | nil => simp [trueRangeList]
  | cons b rest =>
    obtain ⟨m, rfl⟩ : ∃ m, n = m + 1 :=
      ⟨n - 1, (Nat.succ_pred_eq_of_pos hn).symm⟩
    rw [show trueRangeList (b :: rest)
        = (b.high - b.low) :: List.zipWith trueRange (b :: rest) rest from rfl]
    rw [List.drop_succ_cons, zipWith_drop_eq, Nat.add_sub_cancel,
      List.drop_succ_cons]

/-! ## Lemmas about the order monitor loop -/

theorem monitorLoop_deadline (order_id : String)
    (timeout check_interval : ℚ) (finalResp : PollResp) (s : LoopState)
    (resps : List PollResp) (h : ¬ s.elapsed < timeout) :
    monitorLoop order_id timeout check_interval finalResp s resps
      = finalCheck order_id finalResp s.elapsed := by
  cases resps with
  | nil => rfl
  | cons r rest => simp only [monitorLoop, if_neg h]

theorem monitorLoop_cons_exc (order_id : String)
    (timeout check_interval : ℚ) (finalResp : PollResp) (s : LoopState)
    (e : String) (rest : List PollResp) (ht : s.elapsed < timeout)
    (hf : s.failures + 1 < 5) :
    monitorLoop order_id timeout check_interval finalResp s (.exc e :: rest)
      = monitorLoop order_id timeout check_interval finalResp
          ⟨s.elapsed + min (check_interval * 2 ^ (s.failures + 1)) 5,
            s.failures + 1⟩ rest := by
  have h5 : ¬ 5 ≤ s.failures + 1 := Nat.not_le.mpr hf
  simp only [monitorLoop, if_pos ht, monitorStep, if_neg h5]

theorem monitorLoop_exc_fifth (order_id : String)
    (timeout check_interval : ℚ) (finalResp : PollResp) (s : LoopState)
    (e : String) (rest : List PollResp) (ht : s.elapsed < timeout)
    (hf : 5 ≤ s.failures + 1) :
    monitorLoop order_id timeout check_interval finalResp s (.exc e :: rest)
      = .errorResult order_id e := by
  simp only [monitorLoop, if_pos ht, monitorStep, if_pos hf]

theorem momentumWeight_nonneg (M : List Signal) (s : Signal)
    (hsc : ∀ q ∈ M, 0 ≤ q.momentum_score) (hs : s ∈ M) :
    0 ≤ momentumWeight M s := by
  rw [momentumWeight]
  split
  · rename_i htot
    exact div_nonneg (hsc s hs) (le_of_lt htot)
  · exact div_nonneg zero_le_one (Nat.cast_nonneg _)

theorem forall_snd_momentumAllocations (c : ℚ) (M : List Signal) :
    ∀ p ∈ momentumAllocations c M, 5000 ≤ p.2 := by
  rw [momentumAllocations]
  split
  · exact forall_snd_foldl_allocStep _ _ M [] (by simp) (fun s _ h => h)
  · simp

theorem nodup_keys_momentumAllocations (c : ℚ) (M : List Signal) :
    ((momentumAllocations c M).map Prod.fst).Nodup := by
  rw [momentumAllocations]
  split
  · exact nodup_keys_foldl_allocStep _ M [] (by simp)
  · simp

theorem dictSumValues_momentumAllocations_le (c : ℚ) (M : List Signal)
    (hc : 0 ≤ c) (hsc : ∀ q ∈ M, 0 ≤ q.momentum_score) :
    dictSumValues (momentumAllocations c M) ≤ c := by
  rw [momentumAllocations]
  split
  · rename_i hMc
    have hval : ∀ s ∈ M, 0 ≤ c * momentumWeight M s :=
      fun s hs => mul_nonneg hc (momentumWeight_nonneg M s hsc hs)
    have hb := dictSumValues_foldl_allocStep_le
      (fun s => c * momentumWeight M s) M [] (by simp) (by simp) hval
    have hsum : (M.map (fun s => c * momentumWeight M s)).sum
        = c * (M.map (momentumWeight M)).sum :=
      List.sum_map_mul_left M (momentumWeight M) c
    rw [hsum, sum_momentumWeight M hMc.1, mul_one] at hb
    simpa [dictSumValues] using hb
  · simpa [dictSumValues] using hc

theorem momentumAllocations_ne_nil (c : ℚ) (M : List Signal) (s : Signal)
    (hc : 0 ≤ c) (hs : s ∈ M) (hbig : 5000 ≤ c * momentumWeight M s) :
    momentumAllocations c M ≠ [] := by
  have hcpos : c > 0 := by
    rcases lt_or_eq_of_le hc with h | h
    · exact h
    · rw [← h, zero_mul] at hbig
      norm_num at hbig
  rw [momentumAllocations,
    if_pos ⟨List.ne_nil_of_mem hs, hcpos⟩]
  exact foldl_allocStep_ne_nil_of_mem _ M [] s hs hbig

theorem dictLookup_momentumAllocations_self (c : ℚ) (M : List Signal)
    (s : Signal) (hnd : (M.map Signal.ticker).Nodup) (hc : 0 ≤ c)
    (hs : s ∈ M) (hbig : 5000 ≤ c * momentumWeight M s) :
    dictLookup (momentumAllocations c M) s.ticker
      = some (c * momentumWeight M s) := by
  have hcpos : c > 0 := by
    rcases lt_or_eq_of_le hc with h | h
    · exact h
    · rw [← h, zero_mul] at hbig
      norm_num at hbig
  rw [momentumAllocations, if_pos ⟨List.ne_nil_of_mem hs, hcpos⟩]
  exact dictLookup_foldl_allocStep_self _ M [] s hnd hs hbig

theorem forall_snd_regularAllocations (c : ℚ) (R : List Signal)
    (init : List (String × ℚ)) (hinit : ∀ p ∈ init, 5000 ≤ p.2) :
    ∀ p ∈ regularAllocations c R init, 5000 ≤ p.2 := by
  rw [regularAllocations]
  split
  · exact forall_snd_foldl_allocStep _ _ R init hinit (fun s _ h => h)
  · exact hinit

theorem nodup_keys_regularAllocations (c : ℚ) (R : List Signal)
    (init : List (String × ℚ)) (hinit : (init.map Prod.fst).Nodup) :
    ((regularAllocations c R init).map Prod.fst).Nodup := by
  rw [regularAllocations]
  split
  · exact nodup_keys_foldl_allocStep _ R init hinit
  · exact hinit

theorem dictSumValues_regularAllocations_le (c : ℚ) (R : List Signal)
    (init : List (String × ℚ)) (hc : 0 ≤ c)
    (hnd : (init.map Prod.fst).Nodup) (hval : ∀ p ∈ init, 0 ≤ p.2) :
    dictSumValues (regularAllocations c R init) ≤ dictSumValues init + c := by
  rw [regularAllocations]
  split
  · rename_i hRc
    have hlen : ((R.length : ℚ)) ≠ 0 :=
      Nat.cast_ne_zero.mpr (List.length_pos.mpr hRc.1).ne'
    have hshare : 0 ≤ c / (R.length : ℚ) :=
      div_nonneg hc (Nat.cast_nonneg _)
    have hb := dictSumValues_foldl_allocStep_le
      (fun _ => c / (R.length : ℚ)) R init hnd hval (fun s _ => hshare)
    have hsum : (R.map (fun _ => c / (R.length : ℚ))).sum = c := by
      rw [List.map_const', List.sum_replicate, nsmul_eq_mul]
      rw [mul_comm, div_mul_cancel₀ c hlen]
    rw [hsum] at hb
    exact hb
  · linarith

theorem regularAllocations_ne_nil_of_init (c : ℚ) (R : List Signal)
    (init : List (String × ℚ)) (hinit : init ≠ []) :
    regularAllocations c R init ≠ [] := by
  rw [regularAllocations]
  split
  · exact foldl_allocStep_ne_nil _ R init hinit
  · exact hinit

theorem regularAllocations_ne_nil_of_mem (c : ℚ) (R : List Signal)
    (init : List (String × ℚ)) (s : Signal) (hc : 0 ≤ c) (hs : s ∈ R)
    (hbig : 5000 ≤ c / (R.length : ℚ)) :
    regularAllocations c R init ≠ [] := by
  have hcpos : c > 0 := by
    rcases lt_or_eq_of_le hc with h | h
    · exact h
    · rw [← h, zero_div] at hbig
      norm_num at hbig
  rw [regularAllocations, if_pos ⟨List.ne_nil_of_mem hs, hcpos⟩]
  exact foldl_allocStep_ne_nil_of_mem _ R init s hs hbig

theorem dictLookup_regularAllocations_self (c : ℚ) (R : List Signal)
    (init : List (String × ℚ)) (s : Signal)
    (hnd : (R.map Signal.ticker).Nodup) (hc : 0 ≤ c) (hs : s ∈ R)
    (hbig : 5000 ≤ c / (R.length : ℚ)) :
    dictLookup (regularAllocations c R init) s.ticker
      = some (c / (R.length : ℚ)) := by
  have hcpos : c > 0 := by
    rcases lt_or_eq_of_le hc with h | h
    · exact h
    · rw [← h, zero_div] at hbig
      norm_num at hbig
  rw [regularAllocations, if_pos ⟨List.ne_nil_of_mem hs, hcpos⟩]
  exact dictLookup_foldl_allocStep_self _ R init s hnd hs hbig

theorem dictLookup_regularAllocations_of_not_mem (c : ℚ) (R : List Signal)
    (init : List (String × ℚ)) (k : String) (hk : ∀ q ∈ R, q.ticker ≠ k) :
    dictLookup (regularAllocations c R init) k = dictLookup init k := by
  rw [regularAllocations]
  split
  · exact dictLookup_foldl_allocStep_of_not_mem _ R init k hk
  · rfl

/-! ## Claim theorems -/

/-- C1 (amended): once the polling deadline has elapsed, `monitor_order`
performs exactly one final status check; if the final check returns an order
(filled or not) that order dict is returned as-is — a non-filled final state
is returned as that order, not as a `timeout` result; only when the final
check raises or returns nothing does the function return the `timeout`
result carrying the order id and the elapsed time. -/
theorem C1_deadline_final_check (order_id : String)
    (timeout check_interval : ℚ) (finalResp : PollResp) (s : LoopState)
    (resps : List PollResp) (h : timeout ≤ s.elapsed) :
    monitorLoop order_id timeout check_interval finalResp s resps
      = match finalResp with
        | .ok (some o) => .order o
        | .ok none => .timeoutResult order_id s.elapsed
        | .exc _ => .timeoutResult order_id s.elapsed := by
  rw [monitorLoop_deadline order_id timeout check_interval finalResp s resps
    (not_lt.mpr h)]
  cases finalResp with
  | exc e => rfl
  | ok o => cases o <;> rfl

/-- C1 witness: with the deadline already elapsed and a final check that
reports `done`, the result is that filled order. -/
theorem C1_deadline_final_check_witness :
    monitorLoop "u" 60 (1 / 2) (.ok (some ⟨"done", "u"⟩)) ⟨60, 0⟩ []
      = .order ⟨"done", "u"⟩ :=
  C1_deadline_final_check "u" 60 (1 / 2) (.ok (some ⟨"done", "u"⟩)) ⟨60, 0⟩ []
    (by norm_num)

/-- C1 counterexample: an order monitored with a 1-second timeout that stays
in state `wait` (two polls at the 0.5 s default interval, then the deadline)
and whose final status check reports `wait` returns that `wait` order dict,
not the `timeout` result carrying the elapsed time (1 s) that the claim
requires. -/
theorem C1_counterexample :
    monitor_order "u" (some 1) (1 / 2)
        [.ok (some ⟨"wait", "u"⟩), .ok (some ⟨"wait", "u"⟩)]
        (.ok (some ⟨"wait", "u"⟩))
      = .order ⟨"wait", "u"⟩ ∧
    MonitorResult.order ⟨"wait", "u"⟩ ≠ .timeoutResult "u" 1 := by
  constructor
  · norm_num [monitor_order, monitorLoop, monitorStep, finalCheck,
      show ("wait" : String) ≠ "done" from by decide,
      show ("wait" : String) ≠ "cancel" from by decide]
  · decide

/-- C5: while polling, every transport failure increments the
consecutive-failure counter and the next delay is
`min(check_interval * 2 ^ failures, 5)`; a successful poll of a still-open
order resets the counter to 0; and a client that raises on five consecutive
polls makes `monitor_order` stop with the `error` result carrying the last
error. -/
theorem C5_backoff_and_failure_ceiling (order_id : String)
    (timeout check_interval : ℚ) (finalResp : PollResp) :
    (∀ (s : LoopState) (e : String), s.failures + 1 < 5 →
      monitorStep order_id check_interval s (.exc e)
        = .inr ⟨s.elapsed + min (check_interval * 2 ^ (s.failures + 1)) 5,
            s.failures + 1⟩) ∧
    (∀ (s : LoopState) (o : OrderInfo), o.state ≠ "done" →
      o.state ≠ "cancel" →
      monitorStep order_id check_interval s (.ok (some o))
        = .inr ⟨s.elapsed + check_interval, 0⟩) ∧
    (∀ (el : ℚ) (e1 e2 e3 e4 e5 : String) (rest : List PollResp),
      el + 20 < timeout →
      monitorLoop order_id timeout check_interval finalResp ⟨el, 0⟩
          (.exc e1 :: .exc e2 :: .exc e3 :: .exc e4 :: .exc e5 :: rest)
        = .errorResult order_id e5) := by
  refine ⟨?_, ?_, ?_⟩
  · intro s e hf
    simp only [monitorStep, if_neg (Nat.not_le.mpr hf)]
  · intro s o h1 h2
    simp only [monitorStep, if_neg h1, if_neg h2]
  · intro el e1 e2 e3 e4 e5 rest ht
    have hd1 : min (check_interval * 2 ^ (1 : ℕ)) 5 ≤ (5 : ℚ) :=
      min_le_right _ _
    have hd2 : min (check_interval * 2 ^ (2 : ℕ)) 5 ≤ (5 : ℚ) :=
      min_le_right _ _
    have hd3 : min (check_interval * 2 ^ (3 : ℕ)) 5 ≤ (5 : ℚ) :=
      min_le_right _ _
    have hd4 : min (check_interval * 2 ^ (4 : ℕ)) 5 ≤ (5 : ℚ) :=
      min_le_right _ _
    have e1s : monitorLoop order_id timeout check_interval finalResp ⟨el, 0⟩
        (.exc e1 :: .exc e2 :: .exc e3 :: .exc e4 :: .exc e5 :: rest)
        = monitorLoop order_id timeout check_interval finalResp
            ⟨el + min (check_interval * 2 ^ (1 : ℕ)) 5, 1⟩
            (.exc e2 :: .exc e3 :: .exc e4 :: .exc e5 :: rest) :=
      monitorLoop_cons_exc _ _ _ _ _ _ _ (by show el < timeout; linarith)
        (by show 0 + 1 < 5; omega)
    have e2s : monitorLoop order_id timeout check_interval finalResp
        ⟨el + min (check_interval * 2 ^ (1 : ℕ)) 5, 1⟩
        (.exc e2 :: .exc e3 :: .exc e4 :: .exc e5 :: rest)
        = monitorLoop order_id timeout check_interval finalResp
            ⟨el + min (check_interval * 2 ^ (1 : ℕ)) 5
              + min (check_interval * 2 ^ (2 : ℕ)) 5, 2⟩
            (.exc e3 :: .exc e4 :: .exc e5 :: rest) :=
      monitorLoop_cons_exc _ _ _ _ _ _ _
        (by show el + min (check_interval * 2 ^ (1 : ℕ)) 5 < timeout; linarith)
        (by show 1 + 1 < 5; omega)
    have e3s : monitorLoop order_id timeout check_interval finalResp
        ⟨el + min (check_interval * 2 ^ (1 : ℕ)) 5
          + min (check_interval * 2 ^ (2 : ℕ)) 5, 2⟩
        (.exc e3 :: .exc e4 :: .exc e5 :: rest)
        = monitorLoop order_id timeout check_interval finalResp
            ⟨el + min (check_interval * 2 ^ (1 : ℕ)) 5
              + min (check_interval * 2 ^ (2 : ℕ)) 5
              + min (check_interval * 2 ^ (3 : ℕ)) 5, 3⟩
            (.exc e4 :: .exc e5 :: rest) :=
      monitorLoop_cons_exc _ _ _ _ _ _ _
        (by
          show el + min (check_interval * 2 ^ (1 : ℕ)) 5
            + min (check_interval * 2 ^ (2 : ℕ)) 5 < timeout
          linarith)
        (by show 2 + 1 < 5; omega)
    have e4s : monitorLoop order_id timeout check_interval finalResp
        ⟨el + min (check_interval * 2 ^ (1 : ℕ)) 5
          + min (check_interval * 2 ^ (2 : ℕ)) 5
          + min (check_interval * 2 ^ (3 : ℕ)) 5, 3⟩
        (.exc e4 :: .exc e5 :: rest)
        = monitorLoop order_id timeout check_interval finalResp
            ⟨el + min (check_interval * 2 ^ (1 : ℕ)) 5
              + min (check_interval * 2 ^ (2 : ℕ)) 5
              + min (check_interval * 2 ^ (3 : ℕ)) 5
              + min (check_interval * 2 ^ (4 : ℕ)) 5, 4⟩
            (.exc e5 :: rest) :=
      monitorLoop_cons_exc _ _ _ _ _ _ _
        (by
          show el + min (check_interval * 2 ^ (1 : ℕ)) 5
            + min (check_interval * 2 ^ (2 : ℕ)) 5
            + min (check_interval * 2 ^ (3 : ℕ)) 5 < timeout
          linarith)
        (by show 3 + 1 < 5; omega)
    have e5s : monitorLoop order_id timeout check_interval finalResp
        ⟨el + min (check_interval * 2 ^ (1 : ℕ)) 5
          + min (check_interval * 2 ^ (2 : ℕ)) 5
          + min (check_interval * 2 ^ (3 : ℕ)) 5
          + min (check_interval * 2 ^ (4 : ℕ)) 5, 4⟩
        (.exc e5 :: rest)
        = .errorResult order_id e5 :=
      monitorLoop_exc_fifth _ _ _ _ _ _ _
        (by
          show el + min (check_interval * 2 ^ (1 : ℕ)) 5
            + min (check_interval * 2 ^ (2 : ℕ)) 5
            + min (check_interval * 2 ^ (3 : ℕ)) 5
            + min (check_interval * 2 ^ (4 : ℕ)) 5 < timeout
          linarith)
        (by show 5 ≤ 4 + 1; omega)
    rw [e1s, e2s, e3s, e4s, e5s]

/-- C5 witness: with the default 60 s timeout and 0.5 s interval, a client
that raises on every poll makes the loop return the `error` result carrying
the fifth error. -/
theorem C5_backoff_and_failure_ceiling_witness :
    monitorLoop "u" 60 (1 / 2) (.ok none) ⟨0, 0⟩
        [.exc "a", .exc "b", .exc "c", .exc "d", .exc "e"]
      = .errorResult "u" "e" :=
  (C5_backoff_and_failure_ceiling "u" 60 (1 / 2) (.ok none)).2.2 0
    "a" "b" "c" "d" "e" [] (by norm_num)

/-- C2 (amended): `calculate_atr` returns 0 when fewer than `period` bars
are available; for histories with at least `period + 1` bars the result is
the mean of the most recent `period` full True-Range values (each bar paired
with its predecessor) and is non-negative. -/
theorem C2_atr_guard_and_mean (period : ℕ) (df : List Bar)
    (hp : 1 ≤ period) :
    (df.length < period → calculate_atr period df = 0) ∧
    (period + 1 ≤ df.length →
      calculate_atr period df
          = (List.zipWith trueRange (df.drop (df.length - period - 1))
              (df.drop (df.length - period))).sum / (period : ℚ) ∧
        0 ≤ calculate_atr period df) := by
  have hp0 : period ≠ 0 := by omega
  constructor
  · intro hlt
    rw [calculate_atr, if_neg hp0, if_pos hlt]
  · intro hge
    have hnlt : ¬ df.length < period := by omega
    have hdrop := trueRangeList_drop df (df.length - period) (by omega)
    constructor
    · rw [calculate_atr, if_neg hp0, if_neg hnlt, hdrop]
    · rw [calculate_atr, if_neg hp0, if_neg hnlt]
      apply div_nonneg
      · apply List.sum_nonneg
        intro x hx
        rw [hdrop] at hx
        rcases exists_of_mem_zipWith hx with ⟨a, b, rfl⟩
        exact trueRange_nonneg a b
      · exact_mod_cast Nat.zero_le period


/-- C2 witness: a 2-bar history with `period = 1` (at least `period + 1`
bars): the ATR equals the single most recent full True Range, and is
non-negative. -/
theorem C2_atr_guard_and_mean_witness :
    calculate_atr 1 [Bar.mk 10 5 8, Bar.mk 12 9 11]
        = (List.zipWith trueRange
            (([Bar.mk 10 5 8, Bar.mk 12 9 11] : List Bar).drop
              (([Bar.mk 10 5 8, Bar.mk 12 9 11] : List Bar).length - 1 - 1))
            (([Bar.mk 10 5 8, Bar.mk 12 9 11] : List Bar).drop
              (([Bar.mk 10 5 8, Bar.mk 12 9 11] : List Bar).length - 1))).sum
          / ((1 : ℕ) : ℚ) ∧
      0 ≤ calculate_atr 1 [Bar.mk 10 5 8, Bar.mk 12 9 11] :=
  (C2_atr_guard_and_mean 1 [Bar.mk 10 5 8, Bar.mk 12 9 11] (by decide)).2
    (by decide)

/-- C2 counterexample: with `period = 2` a history of exactly 2 bars has
fewer than `period + 1` bars, yet `calculate_atr` does not return 0 — the
guard in the code is `len(df) < period`, not `len(df) < period + 1`, and at
exactly `period` bars it averages a window whose oldest True Range degrades
to `high - low`. -/
theorem C2_counterexample :
    ([Bar.mk 10 5 8, Bar.mk 12 9 11] : List Bar).length < 2 + 1 ∧
      calculate_atr 2 [Bar.mk 10 5 8, Bar.mk 12 9 11] ≠ 0 := by
  constructor
  · decide
  · norm_num [calculate_atr, trueRangeList, trueRange]

/-- Projections of the risk dict built by `calculate_position_risk_levels`
whenever it returns one. -/
theorem riskData_projections_of_some (current_price atrFetched : ℚ)
    (recent : Option (ℚ × ℚ)) (market_value portfolio_value : ℚ)
    (rd : RiskData)
    (h : calculate_position_risk_levels current_price atrFetched recent
        market_value portfolio_value = some rd) :
    rd.stop_loss
        = max
          (if current_price > estimatedEntry current_price recent
              + effectiveAtr current_price atrFetched * (3 / 2) then
            max (estimatedEntry current_price recent
                - effectiveAtr current_price atrFetched * 2)
              (current_price - effectiveAtr current_price atrFetched * 2)
          else estimatedEntry current_price recent
            - effectiveAtr current_price atrFetched * 2) 0 ∧
      rd.atr = effectiveAtr current_price atrFetched := by
  simp only [calculate_position_risk_levels] at h
  split at h
  · exact absurd h (by simp)
  · rw [Option.some.injEq] at h
    rw [← h]
    exact ⟨rfl, rfl⟩

/-- C6: every risk dict produced by `calculate_position_risk_levels` has a
non-negative stop-loss (it is clamped with `max(stop_loss, 0)`), and when
the fetched ATR is 0 the dict's ATR is the fallback 2 % of the current
price. -/
theorem C6_stop_loss_nonneg_and_atr_fallback (current_price atrFetched : ℚ)
    (recent : Option (ℚ × ℚ)) (market_value portfolio_value : ℚ)
    (rd : RiskData)
    (h : calculate_position_risk_levels current_price atrFetched recent
        market_value portfolio_value = some rd) :
    0 ≤ rd.stop_loss ∧
      (atrFetched = 0 → rd.atr = current_price * (2 / 100)) := by
  obtain ⟨hsl, hatr⟩ := riskData_projections_of_some current_price atrFetched
    recent market_value portfolio_value rd h
  constructor
  · rw [hsl]
    exact le_max_right _ 0
  · intro h0
    rw [hatr, effectiveAtr, if_pos h0]

/-- C6 witness: a position at price 100 whose ATR fetch returned 0 gets the
fallback ATR 2 (2 % of 100) and a stop-loss of 96 ≥ 0. -/
theorem C6_stop_loss_nonneg_and_atr_fallback_witness :
    0 ≤ (RiskData.mk 2 2 100 96 106 103 0 4 6 100).stop_loss ∧
      ((0 : ℚ) = 0 →
        (RiskData.mk 2 2 100 96 106 103 0 4 6 100).atr = 100 * (2 / 100)) :=
  C6_stop_loss_nonneg_and_atr_fallback 100 0 none 1 1
    (RiskData.mk 2 2 100 96 106 103 0 4 6 100)
    (by norm_num [calculate_position_risk_levels, effectiveAtr,
      estimatedEntry])

/-- C7 (amended): when the current price is above the trailing activation
the stop-loss in the risk dict equals
`max(max(entry − atr·2, price − atr·2), 0)` — the ratcheted stop clamped at
zero, the clamp being reachable when both candidates are negative — and is
therefore never lower than the non-trailing stop `entry − atr·2`. -/
theorem C7_trailing_ratchet_clamped (current_price atrFetched : ℚ)
    (recent : Option (ℚ × ℚ)) (market_value portfolio_value : ℚ)
    (rd : RiskData)
    (h : calculate_position_risk_levels current_price atrFetched recent
        market_value portfolio_value = some rd)
    (htr : current_price > estimatedEntry current_price recent
        + effectiveAtr current_price atrFetched * (3 / 2)) :
    rd.stop_loss
        = max (max (estimatedEntry current_price recent
              - effectiveAtr current_price atrFetched * 2)
            (current_price - effectiveAtr current_price atrFetched * 2)) 0 ∧
      estimatedEntry current_price recent
          - effectiveAtr current_price atrFetched * 2 ≤ rd.stop_loss := by
  obtain ⟨hsl, -⟩ := riskData_projections_of_some current_price atrFetched
    recent market_value portfolio_value rd h
  rw [if_pos htr] at hsl
  refine ⟨hsl, ?_⟩
  rw [hsl]
  exact le_trans (le_max_left _ _) (le_max_left _ 0)

/-- C7 witness: price 110, ATR 2, recent window (98, 102): the trailing
activation 103 is exceeded, and the stop ratchets up to
`max(max(96, 106), 0) = 106 ≥ 96`. -/
theorem C7_trailing_ratchet_clamped_witness :
    (RiskData.mk 2 (20 / 11) 100 106 106 103 10 (40 / 11) (-(40 / 11))
          100).stop_loss
        = max (max (estimatedEntry 110 (some (98, 102))
              - effectiveAtr 110 2 * 2)
            (110 - effectiveAtr 110 2 * 2)) 0 ∧
      estimatedEntry 110 (some (98, 102)) - effectiveAtr 110 2 * 2
        ≤ (RiskData.mk 2 (20 / 11) 100 106 106 103 10 (40 / 11) (-(40 / 11))
            100).stop_loss :=
  C7_trailing_ratchet_clamped 110 2 (some (98, 102)) 1 1
    (RiskData.mk 2 (20 / 11) 100 106 106 103 10 (40 / 11) (-(40 / 11)) 100)
    (by norm_num [calculate_position_risk_levels, effectiveAtr,
      estimatedEntry])
    (by norm_num [estimatedEntry, effectiveAtr])

/-- C7 counterexample: price 71, fetched ATR 40, recent window (5, 15)
(entry 10): the price exceeds the trailing activation 70, but the risk
dict's stop-loss is the clamped value 0, not
`max(entry − atr·2, price − atr·2) = −9` as the claim's equality states. -/
theorem C7_counterexample :
    (71 : ℚ) > estimatedEntry 71 (some (5, 15))
        + effectiveAtr 71 40 * (3 / 2) ∧
    (calculate_position_risk_levels 71 40 (some (5, 15)) 1 100).map
        RiskData.stop_loss = some 0 ∧
    ¬ ((0 : ℚ) = max (estimatedEntry 71 (some (5, 15))
        - effectiveAtr 71 40 * 2) (71 - effectiveAtr 71 40 * 2)) := by
  refine ⟨by norm_num [estimatedEntry, effectiveAtr], ?_,
    by norm_num [estimatedEntry, effectiveAtr]⟩
  norm_num [calculate_position_risk_levels, estimatedEntry, effectiveAtr]

/-- C8: the monitoring cycle checks the stop-loss condition first and the
take-profit condition only in the `elif`: whenever
`current_price ≤ stop_loss` holds — in particular in the degenerate case
where `current_price ≥ take_profit` holds as well — STOP-LOSS is selected
and TAKE-PROFIT is not; TAKE-PROFIT is selected only when the stop-loss
condition did not fire. -/
theorem C8_stop_loss_priority :
    (∀ current_price stop_loss take_profit : ℚ,
      current_price ≤ stop_loss → take_profit ≤ current_price →
        selectRiskAction current_price stop_loss take_profit
            = RiskAction.stopLossOrder ∧
          selectRiskAction current_price stop_loss take_profit
            ≠ RiskAction.takeProfitOrder) ∧
    (∀ current_price stop_loss take_profit : ℚ,
      ¬ current_price ≤ stop_loss → take_profit ≤ current_price →
        selectRiskAction current_price stop_loss take_profit
          = RiskAction.takeProfitOrder) := by
  constructor
  · intro cp sl tp h1 h2
    constructor
    · simp [selectRiskAction, should_execute_stop_loss, h1]
    · simp [selectRiskAction, should_execute_stop_loss, h1]
  · intro cp sl tp h1 h2
    simp [selectRiskAction, should_execute_stop_loss,
      should_execute_take_profit, h1, h2]

/-- C8 witness: at price 5 with stop 10 and target 3 both conditions hold
and STOP-LOSS is selected; at price 10 with stop 5 and target 3 only the
take-profit condition holds and TAKE-PROFIT is selected. -/
theorem C8_stop_loss_priority_witness :
    (selectRiskAction 5 10 3 = RiskAction.stopLossOrder ∧
      selectRiskAction 5 10 3 ≠ RiskAction.takeProfitOrder) ∧
    selectRiskAction 10 5 3 = RiskAction.takeProfitOrder :=
  ⟨C8_stop_loss_priority.1 5 10 3 (by norm_num) (by norm_num),
    C8_stop_loss_priority.2 10 5 3 (by norm_num) (by norm_num)⟩

/-- C9 (amended): `execute_market_buy` returns a structured failure
(success flag false with an error reason) when the price lookup returns
nothing or a falsy zero price, and both executors surface transport errors
as structured failures; `execute_market_sell`, however, never checks the
price lookup — with an unresolved price it proceeds and, if the exchange
accepts the order, returns a success result whose `executed_price` is
simply empty. -/
theorem C9_price_resolution_handling :
    (∀ (test_mode : Bool) (ticker : String) (krw_amount : ℚ)
        (orderResp : Except String (Option String)),
      execute_market_buy test_mode ticker krw_amount none orderResp
        = ⟨false, some ("Couldn't get current price for " ++ ticker), none,
            none, none⟩) ∧
    (∀ (test_mode : Bool) (ticker : String) (krw_amount : ℚ)
        (orderResp : Except String (Option String)),
      execute_market_buy test_mode ticker krw_amount (some 0) orderResp
        = ⟨false, some ("Couldn't get current price for " ++ ticker), none,
            none, none⟩) ∧
    (∀ (test_mode : Bool) (ticker : String) (krw_amount p : ℚ)
        (e : String), p ≠ 0 →
      execute_market_buy test_mode ticker krw_amount (some p) (.error e)
        = ⟨false, some e, none, none, none⟩) ∧
    (∀ (test_mode : Bool) (ticker : String) (amount balance : ℚ)
        (price : Option ℚ) (e : String),
      execute_market_sell test_mode ticker amount balance price (.error e)
        = ⟨false, some e, none, none, none⟩) ∧
    (∀ (ticker : String) (amount balance : ℚ) (uuid : String),
      execute_market_sell false ticker amount balance none (.ok (some uuid))
        = ⟨true, none, some uuid, none, some amount⟩) := by
  refine ⟨fun tm t a resp => rfl, ?_, ?_, fun tm t a bal pr e => rfl, ?_⟩
  · intro tm t a resp
    simp [execute_market_buy]
  · intro tm t a p e hp
    simp [execute_market_buy, hp]
  · intro t a bal uuid
    simp [execute_market_sell]

/-- C9 witness: a market buy whose order placement raises is surfaced as a
structured failure carrying the error string. -/
theorem C9_price_resolution_handling_witness :
    execute_market_buy false "KRW-BTC" 10000 (some 100) (.error "boom")
      = ⟨false, some "boom", none, none, none⟩ :=
  C9_price_resolution_handling.2.2.1 false "KRW-BTC" 10000 100 "boom"
    (by norm_num)

/-- C9 counterexample: a market sell for which the price lookup returned
nothing still proceeds and reports success (with no error), contradicting
the claim that a sell with an unresolvable price returns a structured
failure. -/
theorem C9_counterexample :
    (execute_market_sell false "KRW-BTC" 1 0 none
        (.ok (some "uuid-1"))).success = true ∧
    (execute_market_sell false "KRW-BTC" 1 0 none
        (.ok (some "uuid-1"))).error = none := by
  constructor <;> rfl

/-- C10: `wait_for_orders_completion` monitors every order that carries a
uuid — none is skipped on deadline exhaustion — and allocates each one the
timeout `max(1, timeout - elapsed)`, hence always at least 1 second; orders
reached after the shared deadline has fully elapsed still get exactly
1 second each (so the batch can overrun the total timeout). -/
theorem C10_every_order_polled (timeout : ℚ) :
    (∀ (elapsed : ℚ) (orders : List (Option String × ℚ)),
      (wait_for_orders_completion timeout elapsed orders).map Prod.fst
        = orders.filterMap Prod.fst) ∧
    (∀ (elapsed : ℚ) (orders : List (Option String × ℚ)),
      ∀ p ∈ wait_for_orders_completion timeout elapsed orders, 1 ≤ p.2) ∧
    (∀ (elapsed : ℚ) (orders : List (Option String × ℚ)),
      timeout ≤ elapsed → (∀ q ∈ orders, 0 ≤ q.2) →
      ∀ p ∈ wait_for_orders_completion timeout elapsed orders, p.2 = 1) := by
  refine ⟨?_, ?_, ?_⟩
  · intro elapsed orders
    induction orders generalizing elapsed with
    | nil => rfl
    | cons q rest ih =>
      obtain ⟨ou, d⟩ := q
      cases ou with
      | none => simp [wait_for_orders_completion, ih]
      | some u => simp [wait_for_orders_completion, ih, List.filterMap_cons]
  · intro elapsed orders
    induction orders generalizing elapsed with
    | nil =>
      intro p hp
      simp [wait_for_orders_completion] at hp
    | cons q rest ih =>
      obtain ⟨ou, d⟩ := q
      cases ou with
      | none =>
        intro p hp
        simp only [wait_for_orders_completion] at hp
        exact ih elapsed p hp
      | some u =>
        intro p hp
        simp only [wait_for_orders_completion] at hp
        rcases List.mem_cons.mp hp with rfl | hp'
        · exact le_max_left _ _
        · exact ih (elapsed + d) p hp'
  · intro elapsed orders
    induction orders generalizing elapsed with
    | nil =>
      intro _ _ p hp
      simp [wait_for_orders_completion] at hp
    | cons q rest ih =>
      obtain ⟨ou, d⟩ := q
      cases ou with
      | none =>
        intro hte hd p hp
        simp only [wait_for_orders_completion] at hp
        exact ih elapsed hte (fun r hr => hd r (List.mem_cons_of_mem _ hr))
          p hp
      | some u =>
        intro hte hd p hp
        simp only [wait_for_orders_completion] at hp
        rcases List.mem_cons.mp hp with rfl | hp'
        · exact max_eq_left (by linarith)
        · have hd0 : 0 ≤ d := hd (some u, d) (List.mem_cons_self _ _)
          exact ih (elapsed + d)
            (by linarith)
            (fun r hr => hd r (List.mem_cons_of_mem _ hr)) p hp'

/-- C10 witness: a batch keeps monitoring every uuid order, and an order
processed 10 seconds past a 60-second deadline is allocated exactly
1 second. -/
theorem C10_every_order_polled_witness :
    (wait_for_orders_completion 60 0
          [(some "a", 59), (none, 5), (some "b", 30)]).map Prod.fst
        = ([(some "a", (59 : ℚ)), (none, 5), (some "b", 30)]
            : List (Option String × ℚ)).filterMap Prod.fst ∧
      ("a", (1 : ℚ)).2 = 1 :=
  ⟨(C10_every_order_polled 60).1 0 [(some "a", 59), (none, 5), (some "b", 30)],
    (C10_every_order_polled 60).2.2 70 [(some "a", 2)] (by norm_num)
      (by
        intro q hq
        rw [List.mem_singleton] at hq
        rw [hq]
        norm_num)
      ("a", 1)
      (by norm_num [wait_for_orders_completion])⟩

theorem regularAllocations_nil (c : ℚ) (init : List (String × ℚ)) :
    regularAllocations c [] init = init := by
  rw [regularAllocations, if_neg]
  rintro ⟨h, -⟩
  exact h rfl

/-- C3: with a non-negative budget and signals satisfying the data-model
invariant (non-negative momentum scores), the allocations returned by
`allocate_capital_dynamically` sum to at most `budget * 0.98`, every
returned allocation is at least 5000, the empty signal list yields the
empty mapping, and the mapping is empty only when every candidate
per-ticker slice (momentum `capital * weight`, regular equal share) falls
below the 5000 minimum. -/
theorem C3_allocation_bounds (available_krw : ℚ) (buy_signals : List Signal)
    (hb : 0 ≤ available_krw)
    (hscore : ∀ s ∈ buy_signals, 0 ≤ s.momentum_score) :
    dictSumValues (allocate_capital_dynamically available_krw buy_signals)
        ≤ available_krw * (98 / 100) ∧
    (∀ p ∈ allocate_capital_dynamically available_krw buy_signals,
      5000 ≤ p.2) ∧
    allocate_capital_dynamically available_krw [] = [] ∧
    (allocate_capital_dynamically available_krw buy_signals = [] →
      (∀ s ∈ buy_signals.filter (fun s => s.is_momentum),
        (capitalSplit (tradeableCapital available_krw)
              (buy_signals.filter (fun s => s.is_momentum))
              (buy_signals.filter (fun s => !s.is_momentum))).1
            * momentumWeight (buy_signals.filter (fun s => s.is_momentum)) s
          < 5000) ∧
      (∀ s ∈ buy_signals.filter (fun s => !s.is_momentum),
        (capitalSplit (tradeableCapital available_krw)
              (buy_signals.filter (fun s => s.is_momentum))
              (buy_signals.filter (fun s => !s.is_momentum))).2
            / ((buy_signals.filter (fun s => !s.is_momentum)).length : ℚ)
          < 5000)) := by
  by_cases hnil : buy_signals = []
  · subst hnil
    refine ⟨?_, ?_, rfl, ?_⟩
    · rw [show allocate_capital_dynamically available_krw ([] : List Signal)
          = [] from rfl]
      show (0 : ℚ) ≤ available_krw * (98 / 100)
      exact mul_nonneg hb (by norm_num)
    · intro p hp
      rw [show allocate_capital_dynamically available_krw ([] : List Signal)
          = [] from rfl] at hp
      simp at hp
    · intro _
      constructor <;> (intro s hs; simp at hs)
  · set M := buy_signals.filter (fun s => s.is_momentum) with hMdef
    set R := buy_signals.filter (fun s => !s.is_momentum) with hRdef
    have halloc : allocate_capital_dynamically available_krw buy_signals
        = regularAllocations
            (capitalSplit (tradeableCapital available_krw) M R).2 R
            (momentumAllocations
              (capitalSplit (tradeableCapital available_krw) M R).1 M) := by
      rw [allocate_capital_dynamically, if_neg hnil]
    have hscoreM : ∀ s ∈ M, 0 ≤ s.momentum_score := by
      intro s hs
      rw [hMdef] at hs
      exact hscore s (List.mem_of_mem_filter hs)
    have ht0 : 0 ≤ tradeableCapital available_krw := by
      rw [tradeableCapital]
      exact mul_nonneg hb (by norm_num)
    have hcaps : 0 ≤ (capitalSplit (tradeableCapital available_krw) M R).1
        ∧ 0 ≤ (capitalSplit (tradeableCapital available_krw) M R).2
        ∧ (capitalSplit (tradeableCapital available_krw) M R).1
            + (capitalSplit (tradeableCapital available_krw) M R).2
          ≤ tradeableCapital available_krw := by
      by_cases h1 : M ≠ [] ∧ R ≠ []
      · rw [capitalSplit, if_pos h1]
        refine ⟨mul_nonneg ht0 (by norm_num), mul_nonneg ht0 (by norm_num),
          ?_⟩
        show tradeableCapital available_krw * (6 / 10)
            + tradeableCapital available_krw * (1 - 6 / 10)
          ≤ tradeableCapital available_krw
        linarith
      · by_cases h2 : M ≠ []
        · rw [capitalSplit, if_neg h1, if_pos h2]
          refine ⟨ht0, le_refl 0, ?_⟩
          show tradeableCapital available_krw + 0
            ≤ tradeableCapital available_krw
          linarith
        · rw [capitalSplit, if_neg h1, if_neg h2]
          refine ⟨le_refl 0, ht0, ?_⟩
          show 0 + tradeableCapital available_krw
            ≤ tradeableCapital available_krw
          linarith
    obtain ⟨hc1, hc2, hc12⟩ := hcaps
    have hsum1 : dictSumValues (momentumAllocations
          (capitalSplit (tradeableCapital available_krw) M R).1 M)
        ≤ (capitalSplit (tradeableCapital available_krw) M R).1 :=
      dictSumValues_momentumAllocations_le _ M hc1 hscoreM
    have hval1 : ∀ p ∈ momentumAllocations
        (capitalSplit (tradeableCapital available_krw) M R).1 M,
        5000 ≤ p.2 := forall_snd_momentumAllocations _ M
    have hval1' : ∀ p ∈ momentumAllocations
        (capitalSplit (tradeableCapital available_krw) M R).1 M,
        0 ≤ p.2 :=
      fun p hp => le_trans (by norm_num) (hval1 p hp)
    have hnd1 := nodup_keys_momentumAllocations
      (capitalSplit (tradeableCapital available_krw) M R).1 M
    have hsum2 := dictSumValues_regularAllocations_le
      (capitalSplit (tradeableCapital available_krw) M R).2 R
      (momentumAllocations
        (capitalSplit (tradeableCapital available_krw) M R).1 M)
      hc2 hnd1 hval1'
    refine ⟨?_, ?_, rfl, ?_⟩
    · rw [halloc]
      have hteq : available_krw * (98 / 100)
          = tradeableCapital available_krw := by
        rw [tradeableCapital]
        ring
      rw [hteq]
      linarith
    · rw [halloc]
      exact forall_snd_regularAllocations _ R _ hval1
    · intro hempty
      rw [halloc] at hempty
      constructor
      · intro s hs
        by_contra hge
        push_neg at hge
        exact absurd hempty
          (regularAllocations_ne_nil_of_init _ R _
            (momentumAllocations_ne_nil _ M s hc1 hs hge))
      · intro s hs
        by_contra hge
        push_neg at hge
        exact absurd hempty
          (regularAllocations_ne_nil_of_mem _ R _ s hc2 hs hge)

/-- C3 witness: the end-to-end fixture (budget 1,000,000; two momentum
signals with score 20 and one regular signal) respects the 98 % budget
cap. -/
theorem C3_allocation_bounds_witness :
    dictSumValues (allocate_capital_dynamically 1000000
          [Signal.mk "A" true 20, Signal.mk "B" true 20,
            Signal.mk "C" false 1])
      ≤ 1000000 * (98 / 100) :=
  (C3_allocation_bounds 1000000
    [Signal.mk "A" true 20, Signal.mk "B" true 20, Signal.mk "C" false 1]
    (by norm_num)
    (by
      intro s hs
      fin_cases hs <;> norm_num)).1

/-- C4: the capital split and per-signal weights of
`allocate_capital_dynamically` (for a non-negative budget and distinct
tickers): with both groups present each momentum signal whose slice clears
the minimum receives `tradeable * 60 % * weight` and each regular signal
`tradeable * 40 % / #regular`; with a single non-empty group that group
receives 100 % of tradeable capital; a momentum signal's weight is
`score / total` when the group's total score is positive, and the equal
weight `1 / #momentum` otherwise (in particular when the total is 0). -/
theorem C4_capital_split_and_weights (available_krw : ℚ)
    (buy_signals : List Signal) (hb : 0 ≤ available_krw)
    (hnd : (buy_signals.map Signal.ticker).Nodup) :
    (∀ s ∈ buy_signals.filter (fun s => s.is_momentum),
      buy_signals.filter (fun s => !s.is_momentum) ≠ [] →
      5000 ≤ tradeableCapital available_krw * (6 / 10)
          * momentumWeight (buy_signals.filter (fun s => s.is_momentum)) s →
      dictLookup (allocate_capital_dynamically available_krw buy_signals)
          s.ticker
        = some (tradeableCapital available_krw * (6 / 10)
            * momentumWeight (buy_signals.filter (fun s => s.is_momentum))
              s)) ∧
    (∀ s ∈ buy_signals.filter (fun s => s.is_momentum),
      buy_signals.filter (fun s => !s.is_momentum) = [] →
      5000 ≤ tradeableCapital available_krw
          * momentumWeight (buy_signals.filter (fun s => s.is_momentum)) s →
      dictLookup (allocate_capital_dynamically available_krw buy_signals)
          s.ticker
        = some (tradeableCapital available_krw
            * momentumWeight (buy_signals.filter (fun s => s.is_momentum))
              s)) ∧
    (∀ s ∈ buy_signals.filter (fun s => !s.is_momentum),
      buy_signals.filter (fun s => s.is_momentum) ≠ [] →
      5000 ≤ tradeableCapital available_krw * (4 / 10)
          / ((buy_signals.filter (fun s => !s.is_momentum)).length : ℚ) →
      dictLookup (allocate_capital_dynamically available_krw buy_signals)
          s.ticker
        = some (tradeableCapital available_krw * (4 / 10)
            / ((buy_signals.filter (fun s => !s.is_momentum)).length :
              ℚ))) ∧
    (∀ s ∈ buy_signals.filter (fun s => !s.is_momentum),
      buy_signals.filter (fun s => s.is_momentum) = [] →
      5000 ≤ tradeableCapital available_krw
          / ((buy_signals.filter (fun s => !s.is_momentum)).length : ℚ) →
      dictLookup (allocate_capital_dynamically available_krw buy_signals)
          s.ticker
        = some (tradeableCapital available_krw
            / ((buy_signals.filter (fun s => !s.is_momentum)).length :
              ℚ))) ∧
    (∀ s : Signal,
      momentumWeight (buy_signals.filter (fun s => s.is_momentum)) s
        = if ((buy_signals.filter (fun s => s.is_momentum)).map
              Signal.momentum_score).sum > 0 then
            s.momentum_score
              / ((buy_signals.filter (fun s => s.is_momentum)).map
                  Signal.momentum_score).sum
          else
            1 / ((buy_signals.filter (fun s => s.is_momentum)).length :
              ℚ)) := by
  set M := buy_signals.filter (fun s => s.is_momentum) with hMdef
  set R := buy_signals.filter (fun s => !s.is_momentum) with hRdef
  have ht0 : 0 ≤ tradeableCapital available_krw := by
    rw [tradeableCapital]
    exact mul_nonneg hb (by norm_num)
  have hndM : (M.map Signal.ticker).Nodup := by
    rw [hMdef]
    exact ((List.filter_sublist buy_signals).map Signal.ticker).nodup hnd
  have hndR : (R.map Signal.ticker).Nodup := by
    rw [hRdef]
    exact ((List.filter_sublist buy_signals).map Signal.ticker).nodup hnd
  have hMR : ∀ s ∈ M, ∀ r ∈ R, r.ticker ≠ s.ticker := by
    intro s hs r hr hticker
    rw [hMdef] at hs
    rw [hRdef] at hr
    have hsl : s ∈ buy_signals := List.mem_of_mem_filter hs
    have hrl : r ∈ buy_signals := List.mem_of_mem_filter hr
    have heq : r = s := List.inj_on_of_nodup_map hnd hrl hsl hticker
    have h1 : s.is_momentum = true := by
      have := (List.mem_filter.mp hs).2
      simpa using this
    have h2 : (!r.is_momentum) = true := by
      have := (List.mem_filter.mp hr).2
      simpa using this
    rw [heq, h1] at h2
    simp at h2
  refine ⟨?_, ?_, ?_, ?_, fun s => rfl⟩
  · intro s hs hR hbig
    have hM : M ≠ [] := List.ne_nil_of_mem hs
    have hnotnil : buy_signals ≠ [] := by
      intro h
      rw [hMdef, h] at hM
      exact hM rfl
    have hcapseq : capitalSplit (tradeableCapital available_krw) M R
        = (tradeableCapital available_krw * (6 / 10),
          tradeableCapital available_krw * (1 - 6 / 10)) := by
      rw [capitalSplit, if_pos ⟨hM, hR⟩]
    rw [allocate_capital_dynamically, if_neg hnotnil, ← hMdef, ← hRdef,
      hcapseq,
      dictLookup_regularAllocations_of_not_mem _ R _ s.ticker
        (fun r hr => hMR s hs r hr)]
    exact dictLookup_momentumAllocations_self _ M s hndM
      (mul_nonneg ht0 (by norm_num)) hs hbig
  · intro s hs hR hbig
    have hM : M ≠ [] := List.ne_nil_of_mem hs
    have hnotnil : buy_signals ≠ [] := by
      intro h
      rw [hMdef, h] at hM
      exact hM rfl
    have hcapseq : capitalSplit (tradeableCapital available_krw) M R
        = (tradeableCapital available_krw, 0) := by
      rw [capitalSplit, if_neg (fun h => h.2 hR), if_pos hM]
    rw [allocate_capital_dynamically, if_neg hnotnil, ← hMdef, ← hRdef,
      hcapseq, hR, regularAllocations_nil]
    exact dictLookup_momentumAllocations_self _ M s hndM ht0 hs hbig
  · intro s hs hM hbig
    have hR : R ≠ [] := List.ne_nil_of_mem hs
    have hnotnil : buy_signals ≠ [] := by
      intro h
      rw [hRdef, h] at hR
      exact hR rfl
    have hcapseq : capitalSplit (tradeableCapital available_krw) M R
        = (tradeableCapital available_krw * (6 / 10),
          tradeableCapital available_krw * (4 / 10)) := by
      rw [capitalSplit, if_pos ⟨hM, hR⟩]
      norm_num
    rw [allocate_capital_dynamically, if_neg hnotnil, ← hMdef, ← hRdef,
      hcapseq]
    exact dictLookup_regularAllocations_self _ R _ s hndR
      (mul_nonneg ht0 (by norm_num)) hs hbig
  · intro s hs hM hbig
    have hR : R ≠ [] := List.ne_nil_of_mem hs
    have hnotnil : buy_signals ≠ [] := by
      intro h
      rw [hRdef, h] at hR
      exact hR rfl
    have hcapseq : capitalSplit (tradeableCapital available_krw) M R
        = (0, tradeableCapital available_krw) := by
      rw [capitalSplit, if_neg (fun h => h.1 hM), if_neg (fun h => h hM)]
    rw [allocate_capital_dynamically, if_neg hnotnil, ← hMdef, ← hRdef,
      hcapseq]
    exact dictLookup_regularAllocations_self _ R _ s hndR ht0 hs hbig

/-- C4 witness: budget 1,000,000 with momentum scores 30 and 10 and one
regular signal: the momentum pool 588,000 splits 3:1 (441,000 for "A") and
the regular signal receives 392,000. -/
theorem C4_capital_split_and_weights_witness :
    dictLookup (allocate_capital_dynamically 1000000
          [Signal.mk "A" true 30, Signal.mk "B" true 10,
            Signal.mk "C" false 1]) "A"
        = some (tradeableCapital 1000000 * (6 / 10)
            * momentumWeight ([Signal.mk "A" true 30, Signal.mk "B" true 10,
                Signal.mk "C" false 1].filter (fun s => s.is_momentum))
              (Signal.mk "A" true 30)) ∧
      tradeableCapital 1000000 * (6 / 10)
          * momentumWeight ([Signal.mk "A" true 30, Signal.mk "B" true 10,
              Signal.mk "C" false 1].filter (fun s => s.is_momentum))
            (Signal.mk "A" true 30)
        = 441000 := by
  constructor
  · exact (C4_capital_split_and_weights 1000000
      [Signal.mk "A" true 30, Signal.mk "B" true 10, Signal.mk "C" false 1]
      (by norm_num) (by decide)).1 (Signal.mk "A" true 30)
      (by simp)
      (by decide)
      (by norm_num [tradeableCapital, momentumWeight, List.filter])
  · norm_num [tradeableCapital, momentumWeight, List.filter]
